import Mathlib

/-!
Verification of `lenovo_driver_downloader.py` (a Lenovo driver download tool).

Strings are modelled as `List Char` (the Python functions used by the source
operate on character sequences); Python primitives used by the source
(`str.split(sep)`, `urllib.parse.unquote`, `str.strip`, `str.lower`, `int()`,
negative list indexing) are modelled explicitly below, and the functions of the
source are translated on top of them.
-/

namespace LenovoDL

/-- Model of Python `s.split(sep)` for a one-character separator:
auxiliary accumulator form. -/
def splitOnCharAux (sep : Char) : List Char → List Char → List (List Char)
  | [], acc => [acc.reverse]
  | c :: cs, acc =>
    if c = sep then acc.reverse :: splitOnCharAux sep cs []
    else splitOnCharAux sep cs (c :: acc)

/-- Model of Python `s.split(sep)` for a one-character separator. -/
def splitOnChar (sep : Char) (s : List Char) : List (List Char) :=
  splitOnCharAux sep s []

/-- Hex digit value, used by percent-decoding. -/
def hexVal : Char → Option Nat
  | c =>
    if c.isDigit then some (c.toNat - 48)
    else if 'a' ≤ c ∧ c ≤ 'f' then some (c.toNat - 97 + 10)
    else if 'A' ≤ c ∧ c ≤ 'F' then some (c.toNat - 65 + 10)
    else none

/-- Model of Python `urllib.parse.unquote` on character lists: every `%XY`
with two hex digits is replaced by the character with code `16*X + Y`;
malformed escapes are left untouched. -/
def pyUnquote : List Char → List Char
  | [] => []
  | '%' :: a :: b :: rest =>
    match hexVal a, hexVal b with
    | some x, some y => Char.ofNat (16 * x + y) :: pyUnquote rest
    | _, _ => '%' :: pyUnquote (a :: b :: rest)
  | c :: rest => c :: pyUnquote rest

/-- Python whitespace test used by `str.strip()`. -/
def pySpace (c : Char) : Bool :=
  c == ' ' || c == '\t' || c == '\n' || c == '\r' || c == '\x0b' || c == '\x0c'

/-- Model of Python `str.strip()`. -/
def pyStrip (s : List Char) : List Char :=
  ((s.dropWhile pySpace).reverse.dropWhile pySpace).reverse

/-- Model of Python `str.lower()` (ASCII range, which covers every literal the
source compares against). -/
def pyLower (s : List Char) : List Char :=
  s.map (fun c => if 'A' ≤ c ∧ c ≤ 'Z' then Char.ofNat (c.toNat + 32) else c)

/-- Decimal digit run evaluation for `pyInt`. -/
def digitsVal : List Char → Nat → Option Nat
  | [], acc => some acc
  | c :: cs, acc =>
    if c.isDigit then digitsVal cs (acc * 10 + (c.toNat - 48)) else none

/-- Model of Python `int(s)` on an already-stripped token: optional sign
followed by a nonempty digit run; anything else raises `ValueError`
(modelled as `none`). -/
def pyInt (s : List Char) : Option Int :=
  match s with
  | [] => none
  | '-' :: rest =>
    if rest.isEmpty then none else (digitsVal rest 0).map (fun n => -(n : Int))
  | '+' :: rest =>
    if rest.isEmpty then none else (digitsVal rest 0).map (fun n => (n : Int))
  | _ => (digitsVal s 0).map (fun n => (n : Int))

/-- Model of Python list indexing `l[i]`: nonnegative indices are direct,
negative indices count from the end, anything out of range raises
`IndexError` (modelled as `none`). -/
def pyGet {α : Type} (l : List α) (i : Int) : Option α :=
  if 0 ≤ i then l.get? i.toNat
  else if 0 ≤ i + l.length then l.get? (i + l.length).toNat
  else none

/-- Filename derivation of `download_file` (and of the SCCM download loop):
`unquote(url.split('/')[-1].split('?')[0])`. -/
def download_filename (url : List Char) : List Char :=
  pyUnquote (((splitOnChar '?' ((splitOnChar '/' url).getLastD [])).headD []))

/-- Filename the spec sentence describes: the percent-decoded final path
segment of the URL with the query string excluded first:
`unquote(url.split('?')[0].split('/')[-1])`. -/
def spec_filename (url : List Char) : List Char :=
  pyUnquote ((splitOnChar '/' ((splitOnChar '?' url).headD [])).getLastD [])

/-- Last segment of a split, in direct accumulator form (used to reason about
`splitOnChar _ s |>.getLastD []`). -/
def lastSegAux (sep : Char) (acc : List Char) : List Char → List Char
  | [] => acc.reverse
  | c :: cs =>
    if c = sep then lastSegAux sep [] cs else lastSegAux sep (c :: acc) cs

/-- Per-task transfer outcome. `download_file` returns `(success, filename,
error)`; the aggregator tallies `(True, _, "Already exists")` as a skip,
`(True, _, None)` as a completed download and `(False, _, msg)` as a failure. -/
inductive Outcome
  | completed
  | skipped
  | failed
  deriving DecidableEq

/-- A downloadable file of a driver record, as normalized by
`get_drivers_list` (`name`/`url`/`size`/`sha256` keys). -/
structure FileEntry where
  name : List Char
  url : List Char
  size : Nat
  sha256 : List Char
  deriving DecidableEq

/-- A normalized driver record (`title`/`category`/`version`/`release_date`/
`files`). The V2 shape carries no release date; it is modelled as `[]`. -/
structure DriverRecord where
  title : List Char
  category : List Char
  version : List Char
  release_date : List Char
  files : List FileEntry
  deriving DecidableEq

/-- Raw item of the primary (v4) downloads response, after the `.get(...)`
defaulting the source applies to each JSON field. -/
structure ItemV4 where
  title : List Char
  category : List Char
  version : List Char
  release_date : List Char
  files : List FileEntry
  deriving DecidableEq

/-- Normalization of one v4 item: keep only files with a non-empty URL
(`if file_info['url']`), drop the record when no file survives
(`if driver_info['files']`). -/
def parse_v4_item (item : ItemV4) : Option DriverRecord :=
  let files := item.files.filter (fun f => !f.url.isEmpty)
  if files.isEmpty then none
  else some ⟨item.title, item.category, item.version, item.release_date, files⟩

/-- Driver listing under the primary (v4) response shape. -/
def get_drivers_list_v4 (downloads : List ItemV4) : List DriverRecord :=
  downloads.filterMap parse_v4_item

/-- Raw item of the alternate (v2) downloads response. `file_name` is `none`
when the `FileName` key is absent (the source then falls back to
`url.split('/')[-1]`). -/
structure ItemV2 where
  name : List Char
  category : List Char
  version : List Char
  download_url : List Char
  file_name : Option (List Char)
  size : Nat
  deriving DecidableEq

/-- Normalization of one v2 item: the record (with its single file) is only
appended inside `if url:`, so an empty `DownloadUrl` drops the item. -/
def parse_v2_item (item : ItemV2) : Option DriverRecord :=
  if item.download_url.isEmpty then none
  else
    some ⟨item.name, item.category, item.version, [],
      [⟨item.file_name.getD ((splitOnChar '/' item.download_url).getLastD []),
        item.download_url, item.size, []⟩]⟩

/-- Driver listing under the alternate (v2) response shape. -/
def get_drivers_list_v2 (downloads : List ItemV2) : List DriverRecord :=
  downloads.filterMap parse_v2_item

/-- Destination path of a download task:
`category_dir / unquote(url.split('/')[-1].split('?')[0])`. -/
def dest_path (category_dir : List Char) (file_info : FileEntry) : List Char :=
  category_dir ++ '/' :: download_filename file_info.url

/-- Result of one `download_file` call: the filesystem afterwards (a set of
existing paths), the task outcome, and how many network requests were made. -/
structure StepResult where
  fs : List (List Char)
  outcome : Outcome
  netCalls : Nat
  deriving DecidableEq

/-- Model of `download_file`. The filesystem is the list of existing paths and
`net url` tells whether the streamed GET for `url` succeeds. An existing
destination is skipped with no request; a successful GET writes the file; a
failed GET leaves the partially-written file deleted (`filepath.unlink()`),
modelled as the created path being erased again. -/
def download_file (net : List Char → Bool) (fs : List (List Char))
    (file_info : FileEntry) (category_dir : List Char) : StepResult :=
  let filepath := dest_path category_dir file_info
  if filepath ∈ fs then ⟨fs, Outcome.skipped, 0⟩
  else if net file_info.url then ⟨filepath :: fs, Outcome.completed, 1⟩
  else ⟨(filepath :: fs).erase filepath, Outcome.failed, 1⟩

/-- Aggregate result of a transfer-engine run. -/
structure RunResult where
  fs : List (List Char)
  outcomes : List Outcome
  netCalls : Nat
  deriving DecidableEq

/-- The transfer engine over a task list. The thread pool of the source is
modelled by submission order: every task owns a disjoint destination path
(spec §5), so per-path effects are order-independent. -/
def engine_run (net : List Char → Bool) :
    List (List Char) → List (FileEntry × List Char) → RunResult
  | fs, [] => ⟨fs, [], 0⟩
  | fs, task :: rest =>
    let r := download_file net fs task.1 task.2
    let rr := engine_run net r.fs rest
    ⟨rr.fs, r.outcome :: rr.outcomes, r.netCalls + rr.netCalls⟩

/-- Model of `response.iter_content(chunk_size=8192)`: the body cut into
successive chunks of at most 8192 bytes. -/
def iter_content (body : List Nat) : List (List Nat) :=
  if h : body = [] then []
  else body.take 8192 :: iter_content (body.drop 8192)
  termination_by body.length
  decreasing_by
    simp only [List.length_drop]
    have hp := List.length_pos.mpr h
    omega

/-- The sequence of `f.write(...)` calls `download_file` makes for a fetched
body: with a known non-zero `content-length` it streams 8192-byte chunks
(skipping falsy chunks, `if chunk:`); otherwise it writes `response.content`
in one call. -/
def write_ops (total_size : Nat) (body : List Nat) : List (List Nat) :=
  if total_size ≠ 0 then (iter_content body).filter (fun chunk => !chunk.isEmpty)
  else [body]

/-- Category filter of `download_all_drivers`: case-insensitive membership in
the caller-supplied category list; `none` means no filtering. -/
def filter_categories (categories : Option (List (List Char)))
    (drivers : List DriverRecord) : List DriverRecord :=
  match categories with
  | none => drivers
  | some cats =>
    let categories_lower := cats.map pyLower
    drivers.filter (fun d => categories_lower.contains (pyLower d.category))

/-- The manifest record dumped to `driver_manifest.json`. -/
structure Manifest where
  serial_number : List Char
  product : List Char
  drivers : List DriverRecord
  download_date : List Char
  deriving DecidableEq

/-- Category directory name: `category.replace('/', '-').replace('\\', '-')`. -/
def sanitize_category (cat : List Char) : List Char :=
  cat.map (fun c => if c = '/' ∨ c = '\\' then '-' else c)

/-- Observable run events of `download_all_drivers`: the manifest dump and the
submitted download tasks. -/
inductive RunEvent
  | writeManifest (m : Manifest)
  | download (file_info : FileEntry) (category_dir : List Char)
  deriving DecidableEq

/-- The download tasks of `download_all_drivers`, one per file of each
(filtered) driver, grouped under the sanitized category directory. -/
def download_tasks (output_dir : List Char) (drivers : List DriverRecord) :
    List (FileEntry × List Char) :=
  drivers.flatMap
    (fun d => d.files.map
      (fun f => (f, output_dir ++ '/' :: sanitize_category d.category)))

/-- Event trace of `download_all_drivers`: an empty fetch returns early with
no events; otherwise the category filter is applied, the manifest (holding the
filtered list) is written, and only then are the download tasks issued. -/
def download_all_drivers_events (serial product ts output_dir : List Char)
    (fetched : List DriverRecord) (categories : Option (List (List Char))) :
    List RunEvent :=
  if fetched.isEmpty then []
  else
    let drivers := filter_categories categories fetched
    RunEvent.writeManifest ⟨serial, product, drivers, ts⟩ ::
      (download_tasks output_dir drivers).map
        (fun t => RunEvent.download t.1 t.2)

/-- The manifest written by a run, if any: the trace starts with the manifest
dump when one happens. -/
def manifest_of (events : List RunEvent) : Option Manifest :=
  match events.head? with
  | some (RunEvent.writeManifest m) => some m
  | _ => none

/-- Result of the interactive package-selection prompt for one input line:
cancel, a chosen index set, or reject-and-re-prompt. -/
inductive Selection
  | cancelled
  | selected (indices : List Nat)
  | reprompt
  deriving DecidableEq

/-- Insertion step of sorting (used to model Python `sorted`). -/
def insertSorted (k : Nat) : List Nat → List Nat
  | [] => [k]
  | x :: xs => if k ≤ x then k :: x :: xs else x :: insertSorted k xs

/-- Collapse adjacent duplicates of a sorted list (so that sorting then
collapsing models Python `sorted(set(...))`). -/
def dedupAdjacent : List Nat → List Nat
  | [] => []
  | [x] => [x]
  | x :: y :: xs =>
    if x = y then dedupAdjacent (y :: xs) else x :: dedupAdjacent (y :: xs)

/-- Model of Python `sorted(set(l))`. -/
def sorted_set (l : List Nat) : List Nat := dedupAdjacent (l.foldr insertSorted [])

/-- The numeric branch of the selection loop: each comma token is stripped,
empty tokens are ignored, `int()` failure or an out-of-range number rejects
the whole input (`raise ValueError()`), and a valid number `num` contributes
the 0-based index `num - 1`. -/
def parse_indices : List (List Char) → Nat → Option (List Nat)
  | [], _ => some []
  | tok :: toks, n =>
    let num_str := pyStrip tok
    if num_str.isEmpty then parse_indices toks n
    else
      match pyInt num_str with
      | none => none
      | some num =>
        if 1 ≤ num ∧ num ≤ (n : Int) then
          (parse_indices toks n).map (fun rest => (num - 1).toNat :: rest)
        else none

/-- One round of the interactive selection prompt of `download_sccm_packages`
against `n` listed packages: the line is stripped and lowercased; `'none'`
cancels; `'all'` or the empty line selects every package; otherwise the
comma-separated numbers are parsed, an invalid input or an empty index list
re-prompts, and a valid one yields `sorted(set(indices))`. -/
def parse_selection (line : List Char) (n : Nat) : Selection :=
  let selection := pyLower (pyStrip line)
  if selection = "none".data then Selection.cancelled
  else if selection = "all".data ∨ selection = [] then
    Selection.selected (List.range n)
  else
    match parse_indices (splitOnChar ',' selection) n with
    | none => Selection.reprompt
    | some [] => Selection.reprompt
    | some indices => Selection.selected (sorted_set indices)

/-- Translation `main` applies to `--sccm-packages` arguments:
`[idx - 1 for idx in args.sccm_packages]`, with no validation. -/
def cli_selected_indices (sccm_packages_args : List Int) : List Int :=
  sccm_packages_args.map (fun idx => idx - 1)

/-- The selection step `[sccm_packages[i] for i in selected_indices]` with
Python list-indexing semantics; `none` models an uncaught `IndexError`. -/
def select_packages {α : Type} (sccm_packages : List α)
    (selected_indices : List Int) : Option (List α) :=
  selected_indices.mapM (fun i => pyGet sccm_packages i)

/-- External tool invocations of the Unix extraction path. -/
inductive ToolRun
  | sevenzOuter
  | cabextract
  | innoextract
  | sevenzBroad
  deriving DecidableEq

/-- Environment of `_extract_sccm_unix`: which tools `shutil.which` finds,
whether each invocation exits with code 0, and which file names each
successful invocation writes into the extraction directory. -/
structure UnixEnv where
  sevenz_avail : Bool
  cabextract_avail : Bool
  innoextract_avail : Bool
  outer_ok : Bool
  outer_files : List (List Char)
  cab_ok : Bool
  cab_files : List (List Char)
  inno_ok : Bool
  inno_files : List (List Char)
  sevenz_broad_ok : Bool
  sevenz_broad_files : List (List Char)
  deriving DecidableEq

/-- `_cleanup_extract_artifacts`: unlink `'[0]'`, `'CERTIFICATE'`, `'[1]'`,
`'[2]'` from the extraction directory when present. -/
def cleanup_extract_artifacts (contents : List (List Char)) : List (List Char) :=
  contents.filter
    (fun f => !(["[0]".data, "CERTIFICATE".data, "[1]".data, "[2]".data].contains f))

/-- The fixed stage-2 preference order among the tools that are installed:
cabextract, then innoextract, then 7z with `-t*`. -/
def stage2_order (env : UnixEnv) : List ToolRun :=
  (if env.cabextract_avail then [ToolRun.cabextract] else []) ++
    (if env.innoextract_avail then [ToolRun.innoextract] else []) ++
    [ToolRun.sevenzBroad]

/-- Whether a given tool invocation exits successfully in this environment. -/
def tool_ok (env : UnixEnv) : ToolRun → Bool
  | ToolRun.sevenzOuter => env.outer_ok
  | ToolRun.cabextract => env.cab_ok
  | ToolRun.innoextract => env.inno_ok
  | ToolRun.sevenzBroad => env.sevenz_broad_ok

/-- Reference form of a first-success fallback chain: the invoked prefix of
the candidate list, and whether some candidate succeeded. -/
def run_until_success (env : UnixEnv) : List ToolRun → List ToolRun × Bool
  | [] => ([], false)
  | t :: ts =>
    if tool_ok env t then ([t], true)
    else
      let r := run_until_success env ts
      (t :: r.1, r.2)

/-- Model of `_extract_sccm_unix` on the extraction-directory contents:
returns (success, resulting contents, tools invoked in order). Stage 1 runs
7z on the outer layer; if no `'[0]'` payload resulted, the extraction already
counts as done. Otherwise stage 2 tries cabextract (if installed), then
innoextract (if installed), then 7z `-t*`; the first tool exiting 0 wins,
`_cleanup_extract_artifacts` runs after that first success, and if all fail
the function reports failure. -/
def extract_sccm_unix (env : UnixEnv) (contents : List (List Char)) :
    Bool × List (List Char) × List ToolRun :=
  if !env.sevenz_avail then (false, contents, [])
  else if !env.outer_ok then (false, contents, [ToolRun.sevenzOuter])
  else
    let c1 := contents ++ env.outer_files
    if !(c1.contains "[0]".data) then (true, c1, [ToolRun.sevenzOuter])
    else if env.cabextract_avail && env.cab_ok then
      (true, cleanup_extract_artifacts (c1 ++ env.cab_files),
        [ToolRun.sevenzOuter, ToolRun.cabextract])
    else if env.innoextract_avail && env.inno_ok then
      (true, cleanup_extract_artifacts (c1 ++ env.inno_files),
        ToolRun.sevenzOuter ::
          ((if env.cabextract_avail then [ToolRun.cabextract] else []) ++
            [ToolRun.innoextract]))
    else if env.sevenz_broad_ok then
      (true, cleanup_extract_artifacts (c1 ++ env.sevenz_broad_files),
        ToolRun.sevenzOuter ::
          ((if env.cabextract_avail then [ToolRun.cabextract] else []) ++
            (if env.innoextract_avail then [ToolRun.innoextract] else []) ++
            [ToolRun.sevenzBroad]))
    else
      (false, c1,
        ToolRun.sevenzOuter ::
          ((if env.cabextract_avail then [ToolRun.cabextract] else []) ++
            (if env.innoextract_avail then [ToolRun.innoextract] else []) ++
            [ToolRun.sevenzBroad]))

/-- The per-archive extraction step of `download_sccm_packages`: the target
directory is `none` when absent, `some contents` when present. A present,
non-empty directory is skipped with no tool invocation; otherwise
`extract_sccm_package` runs (its `mkdir` creates the directory first). -/
def extract_package_step (st : Option (List (List Char)))
    (do_extract : List (List Char) → Bool × List (List Char) × List ToolRun) :
    Option (List (List Char)) × List ToolRun :=
  match st with
  | some contents =>
    if !contents.isEmpty then (some contents, [])
    else (some (do_extract contents).2.1, (do_extract contents).2.2)
  | none => (some (do_extract []).2.1, (do_extract []).2.2)

end LenovoDL

namespace LenovoDL

theorem splitOnCharAux_ne_nil (sep : Char) (s acc : List Char) :
    splitOnCharAux sep s acc ≠ [] := by
  cases s with
  | nil => simp [splitOnCharAux]
  | cons c cs =>
    by_cases h : c = sep <;> simp [splitOnCharAux, h]
    · exact splitOnCharAux_ne_nil sep cs (c :: acc)

theorem head?_splitOnCharAux (sep : Char) (s acc : List Char) :
    (splitOnCharAux sep s acc).head? =
      some (acc.reverse ++ s.takeWhile (fun c => c != sep)) := by
  induction s generalizing acc with
  | nil => simp [splitOnCharAux]
  | cons c cs ih =>
    by_cases h : c = sep
    · simp [splitOnCharAux, h, List.takeWhile_cons]
    · simp [splitOnCharAux, h, List.takeWhile_cons, ih (c :: acc)]

theorem headD_splitOnChar (sep : Char) (s : List Char) :
    (splitOnChar sep s).headD [] = s.takeWhile (fun c => c != sep) := by
  simp [splitOnChar, List.headD_eq_head?_getD, head?_splitOnCharAux]

theorem getLast?_splitOnCharAux (sep : Char) (s acc : List Char) :
    (splitOnCharAux sep s acc).getLast? = some (lastSegAux sep acc s) := by
  induction s generalizing acc with
  | nil => simp [splitOnCharAux, lastSegAux]
  | cons c cs ih =>
    by_cases h : c = sep
    · have h0 := ih ([] : List Char)
      cases hx : splitOnCharAux sep cs ([] : List Char) with
      | nil => exact absurd hx (splitOnCharAux_ne_nil sep cs [])
      | cons x xs =>
        rw [hx] at h0
        simp only [splitOnCharAux, if_pos h, hx, List.getLast?_cons_cons, lastSegAux]
        exact h0
    · simp [splitOnCharAux, h, lastSegAux, ih (c :: acc)]

theorem getLastD_splitOnChar (sep : Char) (s : List Char) :
    (splitOnChar sep s).getLastD [] = lastSegAux sep [] s := by
  simp [splitOnChar, List.getLastD_eq_getLast?, getLast?_splitOnCharAux]

theorem takeWhile_ne_of_not_mem (q : Char) (l : List Char) (h : q ∉ l) :
    l.takeWhile (fun c => c != q) = l := by
  induction l with
  | nil => rfl
  | cons x xs ih =>
    simp only [List.mem_cons, not_or] at h
    have hx : x ≠ q := fun e => h.1 e.symm
    simp [List.takeWhile_cons, hx, ih h.2]

theorem takeWhile_append_stop (q : Char) (xs ys : List Char) (h : q ∉ xs) :
    (xs ++ q :: ys).takeWhile (fun c => c != q) = xs := by
  induction xs with
  | nil => simp [List.takeWhile_cons]
  | cons x t ih =>
    simp only [List.mem_cons, not_or] at h
    have hx : x ≠ q := fun e => h.1 e.symm
    simp [List.takeWhile_cons, hx, ih h.2]

theorem lastSegAux_of_not_mem (sep : Char) (s : List Char) (h : sep ∉ s) :
    ∀ acc, lastSegAux sep acc s = acc.reverse ++ s := by
  induction s with
  | nil => intro acc; simp [lastSegAux]
  | cons c cs ih =>
    intro acc
    simp only [List.mem_cons, not_or] at h
    have hc : ¬ c = sep := fun e => h.1 e.symm
    simp [lastSegAux, hc, ih h.2 (c :: acc)]

theorem takeWhile_lastSegAux_comm (sep q : Char) (hq : ¬ sep = q) (s : List Char) :
    ∀ acc, sep ∉ s.dropWhile (fun c => c != q) → q ∉ acc →
    (lastSegAux sep acc s).takeWhile (fun c => c != q) =
      lastSegAux sep acc (s.takeWhile (fun c => c != q)) := by
  induction s with
  | nil =>
    intro acc _ hacc
    simp only [lastSegAux, List.takeWhile_nil]
    exact takeWhile_ne_of_not_mem q acc.reverse (by simpa using hacc)
  | cons c cs ih =>
    intro acc hdrop hacc
    by_cases hcq : c = q
    · subst hcq
      have hdrop' : sep ∉ cs := by
        simp only [List.dropWhile_cons, bne_self_eq_false, Bool.false_eq_true,
          if_false, List.mem_cons, not_or] at hdrop
        exact hdrop.2
      have hcsep : ¬ c = sep := fun e => hq e.symm
      simp only [lastSegAux, if_neg hcsep, List.takeWhile_cons, bne_self_eq_false,
        Bool.false_eq_true, if_false]
      rw [lastSegAux_of_not_mem sep cs hdrop' (c :: acc)]
      simp only [List.reverse_cons, List.append_assoc, List.cons_append,
        List.nil_append]
      rw [takeWhile_append_stop c acc.reverse cs (by simpa using hacc)]
    · have hne : (c != q) = true := by simp [hcq]
      have hdrop' : sep ∉ cs.dropWhile (fun x => x != q) := by
        simpa only [List.dropWhile_cons, hne, if_true] using hdrop
      by_cases hcs : c = sep
      · simp only [lastSegAux, if_pos hcs, List.takeWhile_cons, hne, if_true]
        exact ih [] hdrop' (by simp)
      · simp only [lastSegAux, if_neg hcs, List.takeWhile_cons, hne, if_true]
        refine ih (c :: acc) hdrop' ?_
        simp only [List.mem_cons, not_or]
        exact ⟨fun e => hcq e.symm, hacc⟩

theorem download_filename_eq_spec_of_no_slash_in_query (url : List Char)
    (h : ('/' : Char) ∉ url.dropWhile (fun c => c != '?')) :
    download_filename url = spec_filename url := by
  unfold download_filename spec_filename
  rw [getLastD_splitOnChar, headD_splitOnChar, headD_splitOnChar, getLastD_splitOnChar]
  exact congrArg pyUnquote
    (takeWhile_lastSegAux_comm '/' '?' (by decide) url [] h (by simp))

example : download_filename ("https://host/a.exe?sig=b/c".data) = "c".data := by decide

example : spec_filename ("https://host/a.exe?sig=b/c".data) = "a.exe".data := by decide

example : download_filename ("https://h/p/a%20b.exe?x=1".data) = "a b.exe".data := by
  decide

theorem download_file_skip (net : List Char → Bool) (fs : List (List Char))
    (file_info : FileEntry) (category_dir : List Char)
    (h : dest_path category_dir file_info ∈ fs) :
    download_file net fs file_info category_dir = ⟨fs, Outcome.skipped, 0⟩ := by
  simp [download_file, h]

theorem download_file_mono (net : List Char → Bool) (fs : List (List Char))
    (file_info : FileEntry) (category_dir : List Char) (p : List Char)
    (hp : p ∈ fs) : p ∈ (download_file net fs file_info category_dir).fs := by
  unfold download_file
  by_cases h1 : dest_path category_dir file_info ∈ fs
  · simp [h1, hp]
  · by_cases h2 : net file_info.url
    · simp [h1, h2, hp]
    · simp [h1, h2, List.erase_cons_head, hp]

theorem engine_run_mono (net : List Char → Bool)
    (tasks : List (FileEntry × List Char)) :
    ∀ (fs : List (List Char)) (p : List Char), p ∈ fs →
      p ∈ (engine_run net fs tasks).fs := by
  induction tasks with
  | nil => intro fs p hp; simpa [engine_run] using hp
  | cons t rest ih =>
    intro fs p hp
    simp only [engine_run]
    exact ih _ p (download_file_mono net fs t.1 t.2 p hp)

theorem engine_run_outcomes_length (net : List Char → Bool)
    (tasks : List (FileEntry × List Char)) :
    ∀ fs : List (List Char),
      (engine_run net fs tasks).outcomes.length = tasks.length := by
  induction tasks with
  | nil => intro fs; simp [engine_run]
  | cons t rest ih => intro fs; simp [engine_run, ih]

theorem engine_run_paths_present (net : List Char → Bool)
    (tasks : List (FileEntry × List Char)) :
    ∀ fs : List (List Char),
      (∀ o ∈ (engine_run net fs tasks).outcomes, o ≠ Outcome.failed) →
      ∀ t ∈ tasks, dest_path t.2 t.1 ∈ (engine_run net fs tasks).fs := by
  induction tasks with
  | nil => intro fs _ t ht; simp at ht
  | cons t0 rest ih =>
    intro fs hok t ht
    have hok0 : (download_file net fs t0.1 t0.2).outcome ≠ Outcome.failed := by
      exact hok _ (by simp [engine_run])
    have hokr : ∀ o ∈ (engine_run net (download_file net fs t0.1 t0.2).fs
        rest).outcomes, o ≠ Outcome.failed := by
      intro o ho
      exact hok o (by simp [engine_run, ho])
    rcases List.mem_cons.mp ht with ht | ht
    · subst ht
      simp only [engine_run]
      refine engine_run_mono net rest _ _ ?_
      unfold download_file at hok0 ⊢
      by_cases h1 : dest_path t.2 t.1 ∈ fs
      · simpa [h1] using h1
      · by_cases h2 : net t.1.url
        · simp [h1, h2]
        · exact absurd (by simp [h1, h2]) hok0
    · simp only [engine_run]
      exact ih _ hokr t ht

theorem engine_run_all_skip (net : List Char → Bool)
    (tasks : List (FileEntry × List Char)) :
    ∀ fs : List (List Char), (∀ t ∈ tasks, dest_path t.2 t.1 ∈ fs) →
      engine_run net fs tasks =
        ⟨fs, tasks.map (fun _ => Outcome.skipped), 0⟩ := by
  induction tasks with
  | nil => intro fs _; simp [engine_run]
  | cons t0 rest ih =>
    intro fs hall
    have h0 : dest_path t0.2 t0.1 ∈ fs := hall t0 (by simp)
    simp only [engine_run, download_file_skip net fs t0.1 t0.2 h0]
    rw [ih fs (fun t ht => hall t (by simp [ht]))]
    simp

theorem engine_run_not_mem (net : List Char → Bool)
    (tasks : List (FileEntry × List Char)) :
    ∀ (fs : List (List Char)) (p : List Char), p ∉ fs →
      (∀ t ∈ tasks, dest_path t.2 t.1 ≠ p) →
      p ∉ (engine_run net fs tasks).fs := by
  induction tasks with
  | nil => intro fs p hp _; simpa [engine_run] using hp
  | cons t0 rest ih =>
    intro fs p hp hne
    simp only [engine_run]
    refine ih _ p ?_ (fun t ht => hne t (by simp [ht]))
    have hne0 : dest_path t0.2 t0.1 ≠ p := hne t0 (by simp)
    unfold download_file
    by_cases h1 : dest_path t0.2 t0.1 ∈ fs
    · simpa [h1] using hp
    · by_cases h2 : net t0.1.url
      · simp only [if_neg h1, h2, if_pos, List.mem_cons, not_or]
        exact ⟨fun e => hne0 e.symm, hp⟩
      · simp only [if_neg h1, h2, Bool.false_eq_true, if_false,
          List.erase_cons_head]
        exact hp

theorem download_file_failed_not_mem (net : List Char → Bool)
    (fs : List (List Char)) (file_info : FileEntry) (category_dir : List Char)
    (h : (download_file net fs file_info category_dir).outcome = Outcome.failed) :
    dest_path category_dir file_info ∉
      (download_file net fs file_info category_dir).fs := by
  unfold download_file at h ⊢
  by_cases h1 : dest_path category_dir file_info ∈ fs
  · simp [h1] at h
  · by_cases h2 : net file_info.url
    · simp [h1, h2] at h
    · simpa [h1, h2, List.erase_cons_head] using h1

/-- C1 counterexample: the claimed second-run idempotence does not hold
unconditionally. With a network on which the GET fails and one task over an
empty destination directory, the first run records Failed and deletes the
partial file, so the second run with the same task set issues one network
call and yields a Failed outcome — not zero calls and not all-Skipped. -/
theorem rerun_after_failure_counterexample :
    (engine_run (fun _ => false)
        (engine_run (fun _ => false) []
          [(⟨"n".data, "http://h/pack.exe".data, 5, []⟩, "out".data)]).fs
        [(⟨"n".data, "http://h/pack.exe".data, 5, []⟩, "out".data)]).netCalls =
      1 ∧
    (engine_run (fun _ => false)
        (engine_run (fun _ => false) []
          [(⟨"n".data, "http://h/pack.exe".data, 5, []⟩, "out".data)]).fs
        [(⟨"n".data, "http://h/pack.exe".data, 5, []⟩, "out".data)]).outcomes =
      [Outcome.failed] ∧
    [Outcome.failed] ≠ [Outcome.skipped] := by
  refine ⟨?_, ?_, ?_⟩ <;> decide

/-- C1 amended: a download task whose destination file already exists is
recorded as a skipped (already-exists) success with zero network requests,
and a second engine run over the destination state left by a first run in
which no task failed makes zero network calls, changes no file, and yields
all-skipped outcomes (a failed task's partial file is deleted, so a rerun
re-attempts it). -/
theorem transfer_skip_and_idempotent_rerun
    (net : List Char → Bool) (fs : List (List Char))
    (tasks : List (FileEntry × List Char))
    (hok : ∀ o ∈ (engine_run net fs tasks).outcomes, o ≠ Outcome.failed) :
    (∀ (fs' : List (List Char)) (file_info : FileEntry)
        (category_dir : List Char),
      dest_path category_dir file_info ∈ fs' →
      download_file net fs' file_info category_dir =
        ⟨fs', Outcome.skipped, 0⟩) ∧
    engine_run net (engine_run net fs tasks).fs tasks =
      ⟨(engine_run net fs tasks).fs, tasks.map (fun _ => Outcome.skipped), 0⟩ :=
  ⟨fun fs' file_info category_dir h =>
      download_file_skip net fs' file_info category_dir h,
    engine_run_all_skip net tasks (engine_run net fs tasks).fs
      (engine_run_paths_present net tasks fs hok)⟩

theorem transfer_skip_and_idempotent_rerun_witness :
    engine_run (fun _ => true)
        (engine_run (fun _ => true) []
          [(⟨"Audio Driver".data, "http://h/a.exe".data, 5, []⟩,
            "out/Audio".data)]).fs
        [(⟨"Audio Driver".data, "http://h/a.exe".data, 5, []⟩,
          "out/Audio".data)] =
      ⟨(engine_run (fun _ => true) []
          [(⟨"Audio Driver".data, "http://h/a.exe".data, 5, []⟩,
            "out/Audio".data)]).fs,
        [Outcome.skipped], 0⟩ :=
  (transfer_skip_and_idempotent_rerun (fun _ => true) []
      [(⟨"Audio Driver".data, "http://h/a.exe".data, 5, []⟩, "out/Audio".data)]
      (by decide)).2

/-- C2: when the destination paths of a batch are pairwise distinct (the
disjoint-ownership assumption of the design), a task whose outcome is
`failed` leaves no file at its destination path after the whole run, and the
run still produces one outcome for every submitted task (no fail-fast). -/
theorem failed_task_leaves_no_partial_file
    (net : List Char → Bool) (fs : List (List Char))
    (tasks : List (FileEntry × List Char))
    (hdisj : (tasks.map (fun t => dest_path t.2 t.1)).Pairwise (· ≠ ·)) :
    (engine_run net fs tasks).outcomes.length = tasks.length ∧
    ∀ t o, (t, o) ∈ tasks.zip (engine_run net fs tasks).outcomes →
      o = Outcome.failed →
      dest_path t.2 t.1 ∉ (engine_run net fs tasks).fs := by
  refine ⟨engine_run_outcomes_length net tasks fs, ?_⟩
  induction tasks generalizing fs with
  | nil => intro t o hm; simp [engine_run] at hm
  | cons t0 rest ih =>
    intro t o hm hfail
    rw [List.map_cons, List.pairwise_cons] at hdisj
    simp only [engine_run, List.zip_cons_cons, List.mem_cons] at hm
    rcases hm with hm | hm
    · injection hm with ht ho
      subst ht
      rw [ho] at hfail
      have hnot := download_file_failed_not_mem net fs t.1 t.2 hfail
      simp only [engine_run]
      refine engine_run_not_mem net rest _ _ hnot ?_
      intro t' ht' he
      exact hdisj.1 (dest_path t'.2 t'.1)
        (List.mem_map.mpr ⟨t', ht', rfl⟩) he.symm
    · simp only [engine_run]
      exact ih _ hdisj.2 t o hm hfail

/-- C3 counterexample: for a URL whose query string contains a `'/'`, the
filename computed by the code (split on `'/'` over the whole URL, then
truncate at `'?'`) differs from the percent-decoded final path segment with
the query string excluded first, so the claim as stated fails. -/
theorem filename_query_slash_counterexample :
    download_filename "https://host/a.exe?sig=b/c".data ≠
      spec_filename "https://host/a.exe?sig=b/c".data ∧
    download_filename "https://host/a.exe?sig=b/c".data = "c".data ∧
    spec_filename "https://host/a.exe?sig=b/c".data = "a.exe".data := by
  refine ⟨?_, ?_, ?_⟩ <;> decide

/-- C3 amended: whenever the part of the URL from the first `'?'` on contains
no `'/'`, the on-disk filename equals the percent-decoded final path segment
of the URL with the query string excluded; and the filename is a function of
the URL alone, never of the declared display name. -/
theorem filename_from_url_amended (url : List Char)
    (h : ('/' : Char) ∉ url.dropWhile (fun c => c != '?')) :
    download_filename url = spec_filename url ∧
    ∀ (category_dir name name' sha sha' : List Char) (size size' : Nat),
      dest_path category_dir ⟨name, url, size, sha⟩ =
        dest_path category_dir ⟨name', url, size', sha'⟩ :=
  ⟨download_filename_eq_spec_of_no_slash_in_query url h,
    fun _ _ _ _ _ _ _ => rfl⟩

theorem filename_from_url_amended_witness :
    download_filename "https://h/p/a%20b.exe?x=1".data =
      spec_filename "https://h/p/a%20b.exe?x=1".data :=
  (filename_from_url_amended "https://h/p/a%20b.exe?x=1".data (by decide)).1

theorem iter_content_flatten (body : List Nat) :
    (iter_content body).flatten = body := by
  induction body using iter_content.induct with
  | case1 =>
    rw [iter_content]
    simp
  | case2 body h ih =>
    rw [iter_content]
    simp [h, ih]

theorem iter_content_chunk_bounds (body : List Nat) :
    ∀ chunk ∈ iter_content body, chunk.length ≤ 8192 ∧ chunk ≠ [] := by
  induction body using iter_content.induct with
  | case1 =>
    rw [iter_content]
    simp
  | case2 body h ih =>
    intro chunk hc
    rw [iter_content, dif_neg h] at hc
    rcases List.mem_cons.mp hc with hc | hc
    · subst hc
      refine ⟨by simpa using List.length_take_le 8192 body, ?_⟩
      simp [List.take_eq_nil_iff, h]
    · exact ih chunk hc

/-- C4 counterexample: for a response with unknown (absent or zero)
content-length, the body is written in one single `f.write(response.content)`
call, so the write size is not bounded by the 8192-byte read buffer — at a
body of 8193 bytes the single write exceeds the buffer size. -/
theorem unknown_length_unbounded_write_counterexample :
    ¬ ∀ w ∈ write_ops 0 (List.replicate 8193 0), w.length ≤ 8192 := by
  intro hall
  have hw : write_ops 0 (List.replicate 8193 0) = [List.replicate 8193 0] := by
    rw [write_ops]
    exact if_neg (fun hc => hc rfl)
  have h := hall (List.replicate 8193 0) (hw ▸ List.mem_singleton_self _)
  rw [List.length_replicate] at h
  omega

/-- C4 amended: the fetched body is always written in full (the concatenation
of the writes is the body, also for unknown content-length); when the
content-length is known and non-zero the writes are the non-empty
`iter_content` chunks, each at most 8192 bytes; when it is absent or zero the
whole body is written in one call. -/
theorem streamed_write_amended (total_size : Nat) (body : List Nat) :
    (write_ops total_size body).flatten = body ∧
    (total_size ≠ 0 →
      ∀ w ∈ write_ops total_size body, w.length ≤ 8192 ∧ w ≠ []) ∧
    (total_size = 0 → write_ops total_size body = [body]) := by
  have hfilter : (iter_content body).filter (fun chunk => !chunk.isEmpty) =
      iter_content body := by
    rw [List.filter_eq_self]
    intro chunk hc
    simpa using (iter_content_chunk_bounds body chunk hc).2
  by_cases h0 : total_size = 0
  · subst h0
    refine ⟨by simp [write_ops], fun hne => absurd rfl hne, fun _ => by
      simp [write_ops]⟩
  · refine ⟨?_, ?_, fun he => absurd he h0⟩
    · rw [write_ops, if_pos h0, hfilter, iter_content_flatten]
    · intro _ w hw
      rw [write_ops, if_pos h0, hfilter] at hw
      exact iter_content_chunk_bounds body w hw

theorem streamed_write_amended_witness :
    (write_ops 7 [1, 2, 3]).flatten = [1, 2, 3] ∧
    ∀ w ∈ write_ops 7 [1, 2, 3], w.length ≤ 8192 ∧ w ≠ [] :=
  ⟨(streamed_write_amended 7 [1, 2, 3]).1,
    (streamed_write_amended 7 [1, 2, 3]).2.1 (by decide)⟩

/-- C5 counterexample: with a category filter supplied, the manifest holds
the filtered driver list, not the full pre-filter list — here the fetch
returns a BIOS driver and an Audio driver, the filter keeps only BIOS, and
the manifest's driver list is not the fetched two-element list. -/
theorem manifest_postfilter_counterexample :
    (manifest_of (download_all_drivers_events "SN".data "P".data "TS".data
        "out".data
        [⟨"A".data, "BIOS".data, "1".data, [],
            [⟨"fa".data, "http://h/a.exe".data, 1, []⟩]⟩,
          ⟨"B".data, "Audio".data, "1".data, [],
            [⟨"fb".data, "http://h/b.exe".data, 1, []⟩]⟩]
        (some ["BIOS".data]))).map Manifest.drivers ≠
      some
        [⟨"A".data, "BIOS".data, "1".data, [],
            [⟨"fa".data, "http://h/a.exe".data, 1, []⟩]⟩,
          ⟨"B".data, "Audio".data, "1".data, [],
            [⟨"fb".data, "http://h/b.exe".data, 1, []⟩]⟩] := by
  decide

/-- C5 amended: for a non-empty fetched list, exactly one manifest record is
written, as the first event of the run (before any download task), holding
the serial number, the product, the timestamp, and the driver list AFTER
category filtering (which is the full fetched list exactly when no category
filter is supplied); every later event is a download. -/
theorem manifest_written_once_amended (serial product ts output_dir : List Char)
    (fetched : List DriverRecord) (categories : Option (List (List Char)))
    (hne : fetched ≠ []) :
    manifest_of (download_all_drivers_events serial product ts output_dir
        fetched categories) =
      some ⟨serial, product, filter_categories categories fetched, ts⟩ ∧
    (categories = none →
      manifest_of (download_all_drivers_events serial product ts output_dir
          fetched categories) =
        some ⟨serial, product, fetched, ts⟩) ∧
    (download_all_drivers_events serial product ts output_dir fetched
        categories).countP
      (fun e => match e with
        | RunEvent.writeManifest _ => true
        | RunEvent.download _ _ => false) = 1 ∧
    ∀ e ∈ (download_all_drivers_events serial product ts output_dir fetched
        categories).tail,
      ∃ f dir, e = RunEvent.download f dir := by
  have hEmpty : fetched.isEmpty = false := by
    cases fetched with
    | nil => exact absurd rfl hne
    | cons a l => rfl
  unfold download_all_drivers_events
  rw [if_neg (by simp [hEmpty])]
  refine ⟨rfl, ?_, ?_, ?_⟩
  · intro hc
    subst hc
    rfl
  · simp only [List.countP_cons, List.countP_map]
    have hz : List.countP
        ((fun e => match e with
            | RunEvent.writeManifest _ => true
            | RunEvent.download _ _ => false) ∘
          fun t : FileEntry × List Char => RunEvent.download t.1 t.2)
        (download_tasks output_dir (filter_categories categories fetched)) =
        0 := List.countP_eq_zero.mpr (fun t _ => Bool.false_ne_true)
    rw [hz]
    simp
  · intro e he
    simp only [List.tail_cons] at he
    obtain ⟨t, _, rfl⟩ := List.mem_map.mp he
    exact ⟨t.1, t.2, rfl⟩

theorem manifest_written_once_amended_witness :
    manifest_of (download_all_drivers_events "SN".data "P".data "TS".data
        "out".data
        [⟨"A".data, "BIOS".data, "1".data, [],
            [⟨"fa".data, "http://h/a.exe".data, 1, []⟩]⟩] none) =
      some ⟨"SN".data, "P".data,
        filter_categories none
          [⟨"A".data, "BIOS".data, "1".data, [],
              [⟨"fa".data, "http://h/a.exe".data, 1, []⟩]⟩],
        "TS".data⟩ :=
  (manifest_written_once_amended "SN".data "P".data "TS".data "out".data
      [⟨"A".data, "BIOS".data, "1".data, [],
          [⟨"fa".data, "http://h/a.exe".data, 1, []⟩]⟩] none (by decide)).1

/-- C6 counterexample: in non-interactive mode the claim requires the
out-of-range index 0 to be rejected as a validation error, but the code maps
it to the internal index -1, which Python list indexing resolves to the LAST
package: with two packages, `--sccm-packages 0` silently selects PackB. -/
theorem noninteractive_zero_index_counterexample :
    select_packages ["PackA".data, "PackB".data] (cli_selected_indices [0]) =
      some ["PackB".data] ∧
    select_packages ["PackA".data, "PackB".data] (cli_selected_indices [0]) ≠
      none := by
  constructor <;> decide

/-- C6 amended: interactively, a stripped token parsing to a number `num`
with `1 ≤ num ≤ n` contributes exactly the 0-based index `num - 1`; over a
5-item selection, input `1,3` yields indices `{0, 2}`, `all` yields all five,
`none` cancels, and `0` or `6` re-prompts. Non-interactively there is no
validation: index 0 becomes -1 and selects the LAST package, and an index
past the end fails with an uncaught `IndexError` (only after the package list
was fetched). -/
theorem index_translation_amended (n : Nat) (tok : List Char) (num : Int)
    (hnum : pyInt (pyStrip tok) = some num) (hlo : 1 ≤ num)
    (hhi : num ≤ (n : Int)) :
    parse_indices [tok] n = some [(num - 1).toNat] ∧
    parse_selection "1,3".data 5 = Selection.selected [0, 2] ∧
    parse_selection "all".data 5 = Selection.selected (List.range 5) ∧
    parse_selection "none".data 5 = Selection.cancelled ∧
    parse_selection "0".data 5 = Selection.reprompt ∧
    parse_selection "6".data 5 = Selection.reprompt ∧
    (∀ (pkgs : List (List Char)) (hp : pkgs ≠ []),
      select_packages pkgs (cli_selected_indices [0]) =
        some [pkgs.getLast hp]) ∧
    select_packages ["PackA".data, "PackB".data] (cli_selected_indices [4]) =
      none := by
  refine ⟨?_, by decide, by decide, by decide, by decide, by decide, ?_,
    by decide⟩
  · have hne : (pyStrip tok).isEmpty = false := by
      cases hs : pyStrip tok with
      | nil => rw [hs] at hnum; simp [pyInt] at hnum
      | cons a l => rfl
    simp only [parse_indices, hne, Bool.false_eq_true, if_false, hnum]
    rw [if_pos ⟨hlo, hhi⟩]
    rfl
  · intro pkgs hp
    have hlen : 1 ≤ pkgs.length := List.length_pos.mpr hp
    have hpg : pyGet pkgs (0 - 1) = some (pkgs.getLast hp) := by
      unfold pyGet
      rw [if_neg (by omega), if_pos (by omega)]
      have hidx : ((0 - 1 : Int) + pkgs.length).toNat = pkgs.length - 1 := by
        omega
      rw [hidx, List.get?_eq_getElem?, ← List.getLast?_eq_getElem?,
        List.getLast?_eq_getLast_of_ne_nil hp]
    simp only [select_packages, cli_selected_indices, List.map_cons,
      List.map_nil, List.mapM_cons, List.mapM_nil, hpg]
    rfl

theorem index_translation_amended_witness :
    parse_indices ["3".data] 5 = some [2] :=
  (index_translation_amended 5 "3".data 3 (by decide) (by decide) (by decide)).1

/-- C7: a present, non-empty target extraction directory makes the
per-archive extraction step skip entirely — no tool is invoked and the state
is unchanged — and consequently a second invocation on the state left by a
first invocation whose directory ended up non-empty performs no tool
invocation either. -/
theorem extraction_skip_when_populated
    (st : Option (List (List Char))) (contents : List (List Char))
    (do_extract : List (List Char) → Bool × List (List Char) × List ToolRun)
    (hst : st = some contents) (hne : contents ≠ []) :
    extract_package_step st do_extract = (some contents, []) ∧
    ∀ c₁, (extract_package_step st do_extract).1 = some c₁ → c₁ ≠ [] →
      extract_package_step (extract_package_step st do_extract).1 do_extract =
        (some c₁, []) := by
  subst hst
  have hie : contents.isEmpty = false := by
    cases contents with
    | nil => exact absurd rfl hne
    | cons a l => rfl
  have h1 : extract_package_step (some contents) do_extract =
      (some contents, []) := by
    simp [extract_package_step, hie]
  refine ⟨h1, ?_⟩
  intro c₁ hc hne₁
  rw [h1] at hc
  have hceq : contents = c₁ := Option.some.inj hc
  subst hceq
  rw [h1]
  exact h1

theorem extraction_skip_when_populated_witness :
    extract_package_step (some ["driver.inf".data])
        (extract_sccm_unix
          ⟨true, true, true, true, ["[0]".data], true, ["a.inf".data], true,
            [], true, []⟩) =
      (some ["driver.inf".data], []) :=
  (extraction_skip_when_populated (some ["driver.inf".data]) ["driver.inf".data]
      (extract_sccm_unix
        ⟨true, true, true, true, ["[0]".data], true, ["a.inf".data], true,
          [], true, []⟩) rfl (by decide)).1

theorem artifact_not_mem_cleanup (l : List (List Char)) :
    "[0]".data ∉ cleanup_extract_artifacts l ∧
    "CERTIFICATE".data ∉ cleanup_extract_artifacts l ∧
    "[1]".data ∉ cleanup_extract_artifacts l ∧
    "[2]".data ∉ cleanup_extract_artifacts l := by
  refine ⟨?_, ?_, ?_, ?_⟩ <;>
  · intro hmem
    have h2 := (List.mem_filter.mp hmem).2
    revert h2
    decide

/-- C8: when the outer unpack leaves the `[0]` inner payload, stage 2 runs
the available tools of the fixed preference order cabextract, innoextract,
7z-broad until the first success, skipping the remaining alternatives;
overall success equals some stage-2 tool succeeding, and after a success the
`[0]`/`[1]`/`[2]` payload placeholders and the `CERTIFICATE` side-file are no
longer in the output directory. -/
theorem stage2_fallback_chain (env : UnixEnv) (contents : List (List Char))
    (h7 : env.sevenz_avail = true) (hout : env.outer_ok = true)
    (hpay : (contents ++ env.outer_files).contains "[0]".data = true) :
    (extract_sccm_unix env contents).2.2 =
      ToolRun.sevenzOuter :: (run_until_success env (stage2_order env)).1 ∧
    (extract_sccm_unix env contents).1 =
      (run_until_success env (stage2_order env)).2 ∧
    ((extract_sccm_unix env contents).1 = true →
      "[0]".data ∉ (extract_sccm_unix env contents).2.1 ∧
      "CERTIFICATE".data ∉ (extract_sccm_unix env contents).2.1 ∧
      "[1]".data ∉ (extract_sccm_unix env contents).2.1 ∧
      "[2]".data ∉ (extract_sccm_unix env contents).2.1) := by
  obtain ⟨sa, ca, ia, oo, ofl, co, cfl, io, ifl, so, sfl⟩ := env
  simp only at h7 hout hpay
  subst h7
  subst hout
  cases ca <;> cases co <;> cases ia <;> cases io <;> cases so <;>
    simp_all [extract_sccm_unix, stage2_order, run_until_success, tool_ok] <;>
    exact ⟨(artifact_not_mem_cleanup _).1, (artifact_not_mem_cleanup _).2.1,
      (artifact_not_mem_cleanup _).2.2.1, (artifact_not_mem_cleanup _).2.2.2⟩

theorem stage2_fallback_chain_witness :
    (extract_sccm_unix
        ⟨true, true, true, true, ["[0]".data], false, [], true,
          ["x.inf".data], false, []⟩ []).2.2 =
      ToolRun.sevenzOuter ::
        (run_until_success
          ⟨true, true, true, true, ["[0]".data], false, [], true,
            ["x.inf".data], false, []⟩
          (stage2_order
            ⟨true, true, true, true, ["[0]".data], false, [], true,
              ["x.inf".data], false, []⟩)).1 :=
  (stage2_fallback_chain
      ⟨true, true, true, true, ["[0]".data], false, [], true,
        ["x.inf".data], false, []⟩ [] (by decide) (by decide) (by decide)).1

/-- C9: under either response shape, every driver record emitted by the
listing has at least one file, and every one of its files has a non-empty
URL. -/
theorem drivers_have_nonempty_files (downloads4 : List ItemV4)
    (downloads2 : List ItemV2) (d : DriverRecord) :
    (d ∈ get_drivers_list_v4 downloads4 →
      d.files ≠ [] ∧ ∀ f ∈ d.files, f.url ≠ []) ∧
    (d ∈ get_drivers_list_v2 downloads2 →
      d.files ≠ [] ∧ ∀ f ∈ d.files, f.url ≠ []) := by
  constructor
  · intro hd
    obtain ⟨item, _, hp⟩ := List.mem_filterMap.mp hd
    simp only [parse_v4_item] at hp
    by_cases hie : (item.files.filter (fun f => !f.url.isEmpty)).isEmpty = true
    · rw [if_pos hie] at hp
      exact absurd hp (by simp)
    · rw [if_neg hie] at hp
      have hd2 := Option.some.inj hp
      subst hd2
      refine ⟨?_, ?_⟩
      · intro hnl
        apply hie
        rw [List.isEmpty_iff]
        exact hnl
      · intro f hf
        have h2 := (List.mem_filter.mp hf).2
        intro hurl
        simp [hurl] at h2
  · intro hd
    obtain ⟨item, _, hp⟩ := List.mem_filterMap.mp hd
    simp only [parse_v2_item] at hp
    by_cases hie : item.download_url.isEmpty = true
    · rw [if_pos hie] at hp
      exact absurd hp (by simp)
    · rw [if_neg hie] at hp
      have hd2 := Option.some.inj hp
      subst hd2
      refine ⟨by simp, ?_⟩
      intro f hf
      rcases List.mem_singleton.mp hf with rfl
      intro hurl
      apply hie
      rw [List.isEmpty_iff]
      exact hurl

theorem drivers_have_nonempty_files_witness :
    (⟨"T".data, "C".data, "V".data, "D".data,
        [⟨"n".data, "http://u".data, 1, []⟩]⟩ : DriverRecord).files ≠ [] ∧
    ∀ f ∈ (⟨"T".data, "C".data, "V".data, "D".data,
        [⟨"n".data, "http://u".data, 1, []⟩]⟩ : DriverRecord).files,
      f.url ≠ [] :=
  (drivers_have_nonempty_files
      [⟨"T".data, "C".data, "V".data, "D".data,
          [⟨"n".data, "http://u".data, 1, []⟩]⟩] []
      ⟨"T".data, "C".data, "V".data, "D".data,
        [⟨"n".data, "http://u".data, 1, []⟩]⟩).1 (by decide)

/-- C10: at the interactive package prompt an empty input line behaves
exactly like the literal token `all` — it selects every one of the `n`
listed packages. -/
theorem empty_input_selects_all (n : Nat) :
    parse_selection [] n = parse_selection "all".data n ∧
    parse_selection [] n = Selection.selected (List.range n) := by
  constructor <;> rfl

theorem failed_task_leaves_no_partial_file_witness :
    (engine_run (fun _ => false) []
        [(⟨"n".data, "http://h/bad.exe".data, 5, []⟩, "out".data)]).outcomes.length = 1 ∧
    ∀ t o, (t, o) ∈
        [(⟨"n".data, "http://h/bad.exe".data, 5, []⟩, ("out".data : List Char))].zip
          (engine_run (fun _ => false) []
            [(⟨"n".data, "http://h/bad.exe".data, 5, []⟩, "out".data)]).outcomes →
      o = Outcome.failed →
      dest_path t.2 t.1 ∉ (engine_run (fun _ => false) []
        [(⟨"n".data, "http://h/bad.exe".data, 5, []⟩, "out".data)]).fs :=
  failed_task_leaves_no_partial_file (fun _ => false) []
    [(⟨"n".data, "http://h/bad.exe".data, 5, []⟩, "out".data)] (by simp)

end LenovoDL
